import Mathlib

/-!
Verification of the termigo session bridge (Go) against its specification.

The embedding translates the interactive-terminal server found in
`src/unnamed/part_001` (functions `handleWebSocket`, `startInteractiveContainer`,
`stopAndRemoveContainer`, `readContainerOutput`, `readWebSocketInput`) and the
shutdown sequence of `main`.  Bytes are modelled as `Nat` (ASCII values),
Go byte slices as `List Nat`, and the external collaborators (websocket
connection, Docker engine) as oracles saying whether each call succeeds.
-/

namespace Termigo

/-! ### Byte-level model of the outbound relay (`readContainerOutput`)

`readContainerOutput` wraps the container's combined output stream in a
`bufio.Scanner` with the default `ScanLines` split function and writes each
token as one websocket message.  `ScanLines` splits the stream at `'\n'`
bytes, drops the `'\n'`, and additionally drops one trailing `'\r'`; the
final, unterminated segment is emitted at end of stream if non-empty.  The
scanner stops with `ErrTooLong` when a segment reaches the maximum token
size (64 * 1024 bytes) before a newline (or end of stream) is found. -/

def nl : Nat := 10

def cr : Nat := 13

/-- Value of `bufio.MaxScanTokenSize`, the default maximum token size. -/
def maxScanTokenSize : Nat := 65536

/-- Model of `dropCR` from `bufio.ScanLines`: strip one trailing carriage return. -/
def dropCR (x : List Nat) : List Nat :=
  if x.getLast? = some cr then x.dropLast else x

/-- The newline-separated segments of a byte stream, in order.  The final
segment (possibly empty) is the part after the last `'\n'`. -/
def segmentsOf : List Nat → List (List Nat)
  | [] => [[]]
  | b :: rest =>
    if b = nl then [] :: segmentsOf rest
    else
      match segmentsOf rest with
      | [] => [[b]]
      | seg :: segs => (b :: seg) :: segs

/-- Tokens produced by `bufio.Scanner`/`ScanLines` from a segment list:
each newline-terminated segment becomes a token (via `dropCR`), the final
segment becomes a token only when non-empty, and a segment that reaches
`maxScanTokenSize` bytes without its newline stops the scan with an error
(`ErrTooLong`), emitting the earlier tokens only.  The second component is
`false` exactly when the scan stopped with the error. -/
def tokensFrom : List (List Nat) → List (List Nat) × Bool
  | [] => ([], true)
  | seg :: rest =>
    match rest with
    | [] =>
      if seg = [] then ([], true)
      else if maxScanTokenSize ≤ seg.length then ([], false)
      else ([dropCR seg], true)
    | r :: rs =>
      if maxScanTokenSize ≤ seg.length then ([], false)
      else
        let p := tokensFrom (r :: rs)
        (dropCR seg :: p.1, p.2)

/-- Scanner tokens of a byte stream. -/
def scanTokens (s : List Nat) : List (List Nat) × Bool :=
  tokensFrom (segmentsOf s)

/-- Model of `readContainerOutput`: the websocket messages written for a container
output stream delivered as the chunk sequence `chunks`.  The scanner reads
from the underlying stream, so chunk boundaries are invisible to it: it
tokenizes the concatenation. -/
def readContainerOutput (chunks : List (List Nat)) : List (List Nat) :=
  (scanTokens chunks.flatten).1

/-- Whether the outbound relay's scan loop ended normally (end of stream)
rather than with a scanner error. -/
def outboundScanOk (chunks : List (List Nat)) : Bool :=
  (scanTokens chunks.flatten).2

/-! ### Byte-level model of the inbound relay (`readWebSocketInput`)

`readWebSocketInput` loops reading one websocket message at a time, writes
`message ++ "\n"` to the container's stdin, and breaks on the first read or
write error; `defer containerStdin.Close()` closes stdin on every exit
path.  `msgs` is the list of messages successfully read before the
websocket read fails (the loop only exits through an error), and `writeOk i`
says whether the `i`-th stdin write succeeds. -/

inductive InAct where
  | write (bs : List Nat)
  | closeStdin
  deriving DecidableEq, Repr

/-- The loop body of `readWebSocketInput`: writes until the read list is
exhausted (read error) or a stdin write fails. -/
def wsInputLoop (writeOk : Nat → Bool) : Nat → List (List Nat) → List InAct
  | _, [] => []
  | i, m :: rest =>
    if writeOk i then InAct.write (m ++ [nl]) :: wsInputLoop writeOk (i + 1) rest
    else []

/-- Model of `readWebSocketInput`: the actions performed on the container's stdin,
in order.  The deferred `Close` runs after the loop on every path. -/
def readWebSocketInput (writeOk : Nat → Bool) (msgs : List (List Nat)) : List InAct :=
  wsInputLoop writeOk 0 msgs ++ [InAct.closeStdin]

/-! ### Trace model of the per-session handler (`handleWebSocket`)

`handleWebSocket` is a straight-line function whose control flow depends
only on which external calls succeed.  `HandlerOracle` fixes the outcome of
each call; `handleWebSocket` then produces the ordered list of externally
visible events, with Go's deferred calls appended in last-in-first-out
order on each return path, exactly as registered in the source:
`conn.Close` (line 84), the counter increment (line 87),
`activeSessions.Done` (line 89), `stopAndRemoveContainer` (lines 97-99,
only once `startInteractiveContainer` succeeded), and `attachResp.Close`
(line 112, only once `ContainerAttach` succeeded). -/

inductive Ev where
  | denyBusy
  | upgradeFailed
  | acquireTicket
  | releaseTicket
  | wgAdd
  | wgDone
  | createReq
  | startReq
  | provisionError
  | diagMsg (delivered : Bool)
  | attachReq
  | attachOkEv
  | attachError
  | attachClose
  | spawnOutbound
  | runInbound
  | killContainer
  | removeContainer
  | connClose
  deriving DecidableEq, Repr

structure HandlerOracle where
  upgradeOk : Bool
  createOk : Bool
  startOk : Bool
  attachOk : Bool
  connWriteOk : Bool
  deriving DecidableEq, Repr

/-- Event trace of `handleWebSocket` when it runs with the shared counter
`maxConnections` at value `n` and external outcomes `o`.  Mirrors the Go
source line by line:
line 74 capacity check, line 79 upgrade, line 86 decrement, line 88
`Add(1)`, line 91 `startInteractiveContainer` (create then start), line 101
`ContainerAttach`, line 114 `go readContainerOutput`, line 115
`readWebSocketInput`, then the deferred calls of the path. -/
def handleWebSocket (n : Int) (o : HandlerOracle) : List Ev :=
  if n ≤ 0 then [Ev.denyBusy]
  else if o.upgradeOk = false then [Ev.upgradeFailed]
  else
    Ev.acquireTicket :: Ev.wgAdd ::
      (if o.createOk = false then
        [Ev.createReq, Ev.provisionError, Ev.diagMsg o.connWriteOk,
         Ev.wgDone, Ev.releaseTicket, Ev.connClose]
      else if o.startOk = false then
        [Ev.createReq, Ev.startReq, Ev.provisionError, Ev.diagMsg o.connWriteOk,
         Ev.wgDone, Ev.releaseTicket, Ev.connClose]
      else if o.attachOk = false then
        [Ev.createReq, Ev.startReq, Ev.attachReq, Ev.attachError,
         Ev.diagMsg o.connWriteOk,
         Ev.killContainer, Ev.removeContainer,
         Ev.wgDone, Ev.releaseTicket, Ev.connClose]
      else
        [Ev.createReq, Ev.startReq, Ev.attachReq, Ev.attachOkEv,
         Ev.spawnOutbound, Ev.runInbound,
         Ev.attachClose, Ev.killContainer, Ev.removeContainer,
         Ev.wgDone, Ev.releaseTicket, Ev.connClose])

/-- Number of occurrences of event `e` in a trace. -/
def countEv (e : Ev) : List Ev → Nat
  | [] => 0
  | x :: t => (if x = e then 1 else 0) + countEv e t

/-- Number of diagnostic messages written on the connection (delivered or
not: the source ignores the `WriteMessage` error on these paths). -/
def countDiag : List Ev → Nat
  | [] => 0
  | Ev.diagMsg _ :: t => 1 + countDiag t
  | _ :: t => countDiag t

/-- Number of diagnostic messages actually delivered (connection open). -/
def countDiagDelivered : List Ev → Nat
  | [] => 0
  | Ev.diagMsg true :: t => 1 + countDiagDelivered t
  | _ :: t => countDiagDelivered t

def isRelease : Ev → Bool
  | Ev.releaseTicket => true
  | _ => false

/-- The prefix of a trace strictly before the ticket release (the release
marks the transition to `DONE`). -/
def beforeRelease (t : List Ev) : List Ev :=
  t.takeWhile (fun e => !(isRelease e))

/-- Effect of a trace on the shared `maxConnections` counter. -/
def runCounter (n : Int) : List Ev → Int
  | [] => n
  | Ev.acquireTicket :: t => runCounter (n - 1) t
  | Ev.releaseTicket :: t => runCounter (n + 1) t
  | _ :: t => runCounter n t

/-! ### Interleaved admission model (concurrent `handleWebSocket` calls)

The HTTP server runs one `handleWebSocket` goroutine per request, and
`maxConnections` is a plain shared integer: the capacity check (line 74)
and the decrement (line 86) are separate, non-atomic accesses.  Each
request thread is a program counter over those source lines; a scheduler
interleaves the threads one source-level access at a time. -/

inductive SPc where
  | checking
  | checked
  | upgraded
  | acquired
  | relaying
  | denied
  | done
  deriving DecidableEq, Repr

structure AdmState where
  counter : Int
  pcs : List SPc
  deriving DecidableEq, Repr

/-- One step of request thread `i`, following `handleWebSocket`:
the capacity check reads the shared counter; the upgrade succeeds; the
decrement writes `counter - 1`; provisioning and attaching succeed, putting
the session in the relaying phase; finishing runs the deferred increment. -/
def admStep (s : AdmState) (i : Nat) : Option AdmState :=
  match s.pcs.get? i with
  | none => none
  | some SPc.checking =>
      some { s with pcs := s.pcs.set i (if s.counter ≤ 0 then SPc.denied else SPc.checked) }
  | some SPc.checked => some { s with pcs := s.pcs.set i SPc.upgraded }
  | some SPc.upgraded =>
      some { counter := s.counter - 1, pcs := s.pcs.set i SPc.acquired }
  | some SPc.acquired => some { s with pcs := s.pcs.set i SPc.relaying }
  | some SPc.relaying =>
      some { counter := s.counter + 1, pcs := s.pcs.set i SPc.done }
  | some _ => none

/-- Run a schedule (a list of thread indices). -/
def admRun (s : AdmState) : List Nat → Option AdmState
  | [] => some s
  | i :: sched => (admStep s i).bind (admRun · sched)

/-- Initial state: `maxConnections = 3` and four requests arriving
concurrently. -/
def admInit : AdmState :=
  { counter := 3, pcs := [SPc.checking, SPc.checking, SPc.checking, SPc.checking] }

/-- Number of sessions currently in the relaying phase. -/
def relayingCount (s : AdmState) : Nat :=
  (s.pcs.filter (fun pc => pc == SPc.relaying)).length

/-! ### Interaction of the two relay directions within one session

From lines 114-115 of the handler: `readContainerOutput` runs as a free
goroutine while the handler itself runs `readWebSocketInput`; teardown
(the deferred `attachResp.Close`, `stopAndRemoveContainer`, counter
increment) runs only when `readWebSocketInput` returns.  The model keeps
one flag per direction plus the teardown flag, and counts the messages
each direction relays. -/

structure RelayState where
  outAlive : Bool
  inAlive : Bool
  tornDown : Bool
  outCount : Nat
  inCount : Nat
  deriving DecidableEq, Repr

inductive RStep where
  | outRelay
  | outStop
  | inRelay
  | inStop
  | teardown
  deriving DecidableEq, Repr

/-- One step of the session's relay phase.  `outStop` is the outbound
goroutine returning (scanner end-of-stream, scanner error, or websocket
write error); `inStop` is `readWebSocketInput` returning (websocket read
error or stdin write error); `teardown` is the handler running its
deferred cleanup, which in the source happens only after
`readWebSocketInput` has returned. -/
def relayStep (s : RelayState) : RStep → Option RelayState
  | RStep.outRelay =>
      if s.outAlive then some { s with outCount := s.outCount + 1 } else none
  | RStep.outStop =>
      if s.outAlive then some { s with outAlive := false } else none
  | RStep.inRelay =>
      if s.inAlive then some { s with inCount := s.inCount + 1 } else none
  | RStep.inStop =>
      if s.inAlive then some { s with inAlive := false } else none
  | RStep.teardown =>
      if s.inAlive = false ∧ s.tornDown = false then
        some { s with tornDown := true }
      else none

def relayRun (s : RelayState) : List RStep → Option RelayState
  | [] => some s
  | st :: rest => (relayStep s st).bind (relayRun · rest)

/-- Both directions running, nothing torn down: the `RELAYING` state. -/
def relayInit : RelayState :=
  { outAlive := true, inAlive := true, tornDown := false, outCount := 0, inCount := 0 }

/-! ### Shutdown model (`main`, lines 57-68)

`main` blocks on the signal channel, then runs `cancel()`,
`server.Shutdown` (which stops the listener from accepting), and
`activeSessions.Wait()` before returning.  Request threads race with this
sequence: `handleWebSocket` consults only `maxConnections`, never a
draining flag, so a request that reaches the handler is admitted whenever
the counter is positive.  `mpc` is main's program counter; `accepting`
whether the listener still accepts connections. -/

inductive MPc where
  | waitSig
  | sigDone
  | cancelled
  | draining
  | exited
  deriving DecidableEq, Repr

structure SvcState where
  mpc : MPc
  accepting : Bool
  counter : Int
  active : Nat
  admittedAfterSig : Nat
  denied : Nat
  deriving DecidableEq, Repr

inductive SvcStep where
  | sigArrive
  | doCancel
  | doShutdown
  | doExit
  | reqAdmit
  | reqDenyBusy
  | reqRefusedClosed
  | sessionEnd
  deriving DecidableEq, Repr

/-- One step of the service.  `doShutdown` models a successful
`server.Shutdown`: the listener stops accepting.  `doExit` is
`activeSessions.Wait()` returning and `main` exiting, possible only when
the outstanding-session count is zero (the wait is unbounded: the source
has no drain deadline).  `reqAdmit` is a request reaching the handler and
passing the capacity check: nothing in the handler consults the shutdown
state, so this is enabled whenever the listener accepted it and capacity
remains; the model counts admissions that happen after the signal. -/
def svcStep (s : SvcState) : SvcStep → Option SvcState
  | SvcStep.sigArrive =>
      if s.mpc = MPc.waitSig then some { s with mpc := MPc.sigDone } else none
  | SvcStep.doCancel =>
      if s.mpc = MPc.sigDone then some { s with mpc := MPc.cancelled } else none
  | SvcStep.doShutdown =>
      if s.mpc = MPc.cancelled then
        some { s with mpc := MPc.draining, accepting := false }
      else none
  | SvcStep.doExit =>
      if s.mpc = MPc.draining ∧ s.active = 0 then
        some { s with mpc := MPc.exited }
      else none
  | SvcStep.reqAdmit =>
      if s.accepting = true ∧ 0 < s.counter then
        some { s with counter := s.counter - 1, active := s.active + 1,
                      admittedAfterSig :=
                        if s.mpc = MPc.waitSig then s.admittedAfterSig
                        else s.admittedAfterSig + 1 }
      else none
  | SvcStep.reqDenyBusy =>
      if s.accepting = true ∧ s.counter ≤ 0 then
        some { s with denied := s.denied + 1 }
      else none
  | SvcStep.reqRefusedClosed =>
      if s.accepting = false then some { s with denied := s.denied + 1 } else none
  | SvcStep.sessionEnd =>
      if 0 < s.active then
        some { s with active := s.active - 1, counter := s.counter + 1 }
      else none

def svcRun (s : SvcState) : List SvcStep → Option SvcState
  | [] => some s
  | st :: rest => (svcStep s st).bind (svcRun · rest)

/-- Service at startup: capacity 3, no sessions, listener accepting. -/
def svcInit : SvcState :=
  { mpc := MPc.waitSig, accepting := true, counter := 3, active := 0,
    admittedAfterSig := 0, denied := 0 }

/-- Shutdown-model invariant: once main is past `server.Shutdown` the
listener no longer accepts, and main exits only with zero outstanding
sessions. -/
def svcInv (s : SvcState) : Prop :=
  ((s.mpc = MPc.draining ∨ s.mpc = MPc.exited) → s.accepting = false) ∧
  (s.mpc = MPc.exited → s.active = 0)

/-- Relay-model invariant: teardown only happens after the inbound
direction (`readWebSocketInput`) has returned. -/
def relayInv (s : RelayState) : Prop :=
  s.tornDown = true → s.inAlive = false

end Termigo

namespace Termigo

/-! ## Helper lemmas -/

theorem segmentsOf_ne_nil (s : List Nat) : segmentsOf s ≠ [] := by
  induction s with
  | nil => simp [segmentsOf]
  | cons b rest ih =>
    simp only [segmentsOf]
    split
    · simp
    · cases h : segmentsOf rest with
      | nil => exact absurd h ih
      | cons seg segs => simp [h]

theorem segmentsOf_mem_no_nl (s : List Nat) : ∀ seg ∈ segmentsOf s, nl ∉ seg := by
  induction s with
  | nil =>
    intro seg hseg
    simp [segmentsOf] at hseg
    simp [hseg]
  | cons b rest ih =>
    intro seg hseg
    simp only [segmentsOf] at hseg
    by_cases hb : b = nl
    · rw [if_pos hb] at hseg
      rcases List.mem_cons.mp hseg with h | h
      · simp [h]
      · exact ih seg h
    · rw [if_neg hb] at hseg
      cases h : segmentsOf rest with
      | nil => exact absurd h (segmentsOf_ne_nil rest)
      | cons seg0 segs =>
        rw [h] at hseg
        rcases List.mem_cons.mp hseg with h1 | h1
        · subst h1
          intro hmem
          rcases List.mem_cons.mp hmem with h2 | h2
          · exact hb h2.symm
          · exact ih seg0 (h ▸ List.mem_cons_self seg0 segs) h2
        · exact ih seg (h ▸ List.mem_cons_of_mem seg0 h1)

theorem segmentsOf_append_nl (x rest : List Nat) (hx : nl ∉ x) :
    segmentsOf (x ++ nl :: rest) = x :: segmentsOf rest := by
  induction x with
  | nil => simp [segmentsOf]
  | cons b x ih =>
    have hb : ¬ b = nl := fun h => hx (h ▸ List.mem_cons_self b x)
    have hx' : nl ∉ x := fun h => hx (List.mem_cons_of_mem b h)
    simp only [List.cons_append, segmentsOf, if_neg hb]
    have ih' : segmentsOf (x.append (nl :: rest)) = x :: segmentsOf rest := ih hx'
    rw [ih']

theorem segmentsOf_no_nl (x : List Nat) (hx : nl ∉ x) : segmentsOf x = [x] := by
  induction x with
  | nil => simp [segmentsOf]
  | cons b x ih =>
    have hb : ¬ b = nl := fun h => hx (h ▸ List.mem_cons_self b x)
    have hx' : nl ∉ x := fun h => hx (List.mem_cons_of_mem b h)
    simp only [segmentsOf, if_neg hb]
    rw [ih hx']

theorem dropCR_eq_self (x : List Nat) (h : x.getLast? ≠ some cr) : dropCR x = x := by
  simp [dropCR, h]

theorem mem_dropCR (x : List Nat) (b : Nat) (h : b ∈ dropCR x) : b ∈ x := by
  unfold dropCR at h
  split at h
  · exact (List.dropLast_sublist x).subset h
  · exact h

theorem tokensFrom_mem (L : List (List Nat)) :
    ∀ m ∈ (tokensFrom L).1, ∃ seg ∈ L, m = dropCR seg := by
  induction L with
  | nil => simp [tokensFrom]
  | cons seg rest ih =>
    intro m hm
    cases rest with
    | nil =>
      simp only [tokensFrom] at hm
      split at hm
      · simp at hm
      · split at hm
        · simp at hm
        · simp at hm
          exact ⟨seg, List.mem_cons_self seg [], hm⟩
    | cons r rs =>
      simp only [tokensFrom] at hm
      split at hm
      · simp at hm
      · simp only [List.mem_cons] at hm
        rcases hm with h | h
        · exact ⟨seg, List.mem_cons_self seg (r :: rs), h⟩
        · obtain ⟨seg', hseg', hm'⟩ := ih m h
          exact ⟨seg', List.mem_cons_of_mem seg hseg', hm'⟩

theorem tokensFrom_oversized (L : List (List Nat)) :
    ∀ seg ∈ L, maxScanTokenSize < seg.length → (tokensFrom L).2 = false := by
  induction L with
  | nil => simp
  | cons s rest ih =>
    intro seg hseg hlen
    rcases List.mem_cons.mp hseg with h | h
    · subst h
      cases rest with
      | nil =>
        have hne : seg ≠ [] := by
          intro h
          rw [h] at hlen
          simp [maxScanTokenSize] at hlen
        simp [tokensFrom, hne, Nat.le_of_lt hlen]
      | cons r rs =>
        simp [tokensFrom, Nat.le_of_lt hlen]
    · cases rest with
      | nil => simp at h
      | cons r rs =>
        by_cases hs : maxScanTokenSize ≤ s.length
        · simp [tokensFrom, hs]
        · simp only [tokensFrom, if_neg hs]
          exact ih seg h hlen

theorem wsInputLoop_all_ok (writeOk : Nat → Bool) (hw : ∀ i, writeOk i = true) :
    ∀ (k : Nat) (msgs : List (List Nat)),
      wsInputLoop writeOk k msgs = msgs.map (fun m => InAct.write (m ++ [nl])) := by
  intro k msgs
  induction msgs generalizing k with
  | nil => rfl
  | cons m rest ih => simp [wsInputLoop, hw k, ih]

theorem svcStep_preserves (s s' : SvcState) (st : SvcStep)
    (h : svcStep s st = some s') (hs : svcInv s) : svcInv s' := by
  obtain ⟨h1, h2⟩ := hs
  cases st
  case sigArrive =>
    simp only [svcStep] at h
    split at h
    · obtain rfl := Option.some.inj h
      exact ⟨fun hc => by simp at hc, fun hc => by simp at hc⟩
    · exact Option.noConfusion h
  case doCancel =>
    simp only [svcStep] at h
    split at h
    · obtain rfl := Option.some.inj h
      exact ⟨fun hc => by simp at hc, fun hc => by simp at hc⟩
    · exact Option.noConfusion h
  case doShutdown =>
    simp only [svcStep] at h
    split at h
    · obtain rfl := Option.some.inj h
      exact ⟨fun _ => rfl, fun hc => by simp at hc⟩
    · exact Option.noConfusion h
  case doExit =>
    simp only [svcStep] at h
    split at h
    · rename_i hc
      obtain rfl := Option.some.inj h
      exact ⟨fun _ => h1 (Or.inl hc.1), fun _ => hc.2⟩
    · exact Option.noConfusion h
  case reqAdmit =>
    simp only [svcStep] at h
    split at h
    · rename_i hc
      obtain rfl := Option.some.inj h
      exact ⟨h1, fun he => absurd hc.1 (by simp [h1 (Or.inr he)])⟩
    · exact Option.noConfusion h
  case reqDenyBusy =>
    simp only [svcStep] at h
    split at h
    · obtain rfl := Option.some.inj h
      exact ⟨h1, h2⟩
    · exact Option.noConfusion h
  case reqRefusedClosed =>
    simp only [svcStep] at h
    split at h
    · obtain rfl := Option.some.inj h
      exact ⟨h1, h2⟩
    · exact Option.noConfusion h
  case sessionEnd =>
    simp only [svcStep] at h
    split at h
    · obtain rfl := Option.some.inj h
      exact ⟨h1, fun he => by simp [h2 he]⟩
    · exact Option.noConfusion h

theorem svcRun_preserves (steps : List SvcStep) :
    ∀ (s s' : SvcState), svcRun s steps = some s' → svcInv s → svcInv s' := by
  induction steps with
  | nil =>
    intro s s' h hs
    obtain rfl := Option.some.inj h
    exact hs
  | cons st rest ih =>
    intro s s' h hs
    simp only [svcRun] at h
    cases h1 : svcStep s st with
    | none => rw [h1] at h; exact absurd h (by simp)
    | some s1 =>
      rw [h1] at h
      exact ih s1 s' h (svcStep_preserves s s1 st h1 hs)

theorem relayStep_preserves (s s' : RelayState) (st : RStep)
    (h : relayStep s st = some s') (hs : relayInv s) : relayInv s' := by
  cases st
  case outRelay =>
    simp only [relayStep] at h
    split at h
    · obtain rfl := Option.some.inj h
      exact hs
    · exact Option.noConfusion h
  case outStop =>
    simp only [relayStep] at h
    split at h
    · obtain rfl := Option.some.inj h
      exact hs
    · exact Option.noConfusion h
  case inRelay =>
    simp only [relayStep] at h
    split at h
    · obtain rfl := Option.some.inj h
      exact hs
    · exact Option.noConfusion h
  case inStop =>
    simp only [relayStep] at h
    split at h
    · obtain rfl := Option.some.inj h
      exact fun _ => rfl
    · exact Option.noConfusion h
  case teardown =>
    simp only [relayStep] at h
    split at h
    · rename_i hc
      obtain rfl := Option.some.inj h
      exact fun _ => hc.1
    · exact Option.noConfusion h

theorem relayRun_preserves (steps : List RStep) :
    ∀ (s s' : RelayState), relayRun s steps = some s' → relayInv s → relayInv s' := by
  induction steps with
  | nil =>
    intro s s' h hs
    obtain rfl := Option.some.inj h
    exact hs
  | cons st rest ih =>
    intro s s' h hs
    simp only [relayRun] at h
    cases h1 : relayStep s st with
    | none => rw [h1] at h; exact absurd h (by simp)
    | some s1 =>
      rw [h1] at h
      exact ih s1 s' h (relayStep_preserves s s1 st h1 hs)

/-! ## Claims -/

/-- C1 (code_bug exhibit).  The claim says the number of simultaneously
relaying sessions never exceeds the cap `C = 3` and that the 4th
concurrent request is denied.  The capacity check (line 74) and the
decrement (line 86) of the shared, unsynchronized `maxConnections` are
separate steps, so four concurrent requests whose checks all run before
any decrement are all admitted: the schedule below drives all four
sessions into the relaying phase at once (and the counter to `-1`),
with no request denied. -/
theorem admission_cap_race_reaches_four_relaying :
    (admRun admInit [0, 1, 2, 3, 0, 1, 2, 3, 0, 1, 2, 3, 0, 1, 2, 3]).map relayingCount
        = some 4 ∧
      admInit.counter = 3 := by
  constructor
  · rfl
  · rfl

/-- C2 (counterexample).  The outbound relay does not preserve chunk
boundaries: for the backend output chunks `["a", "b", "c"]` (no newlines),
the scanner tokenizes the concatenated stream and the connection receives
the single message `"abc"`, not three messages. -/
theorem relay_chunks_merged_counterexample :
    readContainerOutput [[97], [98], [99]] = [[97, 98, 99]] ∧
      readContainerOutput [[97], [98], [99]] ≠ [[97], [98], [99]] := by
  constructor
  · rfl
  · decide

/-- C2 (amended).  The outbound relay is line-framed, not chunk-framed:
when each chunk is a single newline-terminated line (content without
newline, not ending in a carriage return, shorter than the scanner's
token limit), the connection receives exactly three messages `a`, `b`,
`c` in that order, with the terminators stripped. -/
theorem relay_fidelity_lines_amended (a b c : List Nat)
    (ha : nl ∉ a) (hb : nl ∉ b) (hc : nl ∉ c)
    (ha' : a.getLast? ≠ some cr) (hb' : b.getLast? ≠ some cr) (hc' : c.getLast? ≠ some cr)
    (hla : a.length < maxScanTokenSize) (hlb : b.length < maxScanTokenSize)
    (hlc : c.length < maxScanTokenSize) :
    readContainerOutput [a ++ [nl], b ++ [nl], c ++ [nl]] = [a, b, c] := by
  have hflat : ([a ++ [nl], b ++ [nl], c ++ [nl]] : List (List Nat)).flatten
      = a ++ nl :: (b ++ nl :: (c ++ nl :: ([] : List Nat))) := by
    simp [List.flatten]
  rw [readContainerOutput, scanTokens, hflat,
    segmentsOf_append_nl a _ ha, segmentsOf_append_nl b _ hb, segmentsOf_append_nl c _ hc]
  have h0 : segmentsOf ([] : List Nat) = [[]] := rfl
  rw [h0]
  simp only [tokensFrom, if_neg (Nat.not_le.mpr hla), if_neg (Nat.not_le.mpr hlb),
    if_neg (Nat.not_le.mpr hlc),
    dropCR_eq_self a ha', dropCR_eq_self b hb', dropCR_eq_self c hc']
  rfl

theorem relay_fidelity_lines_amended_witness :
    readContainerOutput [[97, 10], [98, 10], [99, 10]] = [[97], [98], [99]] := by
  have h := relay_fidelity_lines_amended [97] [98] [99]
    (by decide) (by decide) (by decide) (by decide) (by decide) (by decide)
    (by decide) (by decide) (by decide)
  simpa [nl] using h

/-- C10.  Every message the outbound relay writes is one maximal line of
the container output with its terminator stripped; no outbound message
contains a newline byte; and an output segment longer than the scanner's
maximum token size stops the outbound scan with an error. -/
theorem outbound_line_framing (chunks : List (List Nat)) :
    (∀ m ∈ readContainerOutput chunks, nl ∉ m) ∧
      (∀ m ∈ readContainerOutput chunks, ∃ seg ∈ segmentsOf chunks.flatten, m = dropCR seg) ∧
      (∀ seg ∈ segmentsOf chunks.flatten, maxScanTokenSize < seg.length →
        outboundScanOk chunks = false) := by
  refine ⟨?_, ?_, ?_⟩
  · intro m hm
    obtain ⟨seg, hseg, rfl⟩ := tokensFrom_mem (segmentsOf chunks.flatten) m hm
    exact fun h => segmentsOf_mem_no_nl chunks.flatten seg hseg (mem_dropCR seg nl h)
  · intro m hm
    exact tokensFrom_mem (segmentsOf chunks.flatten) m hm
  · intro seg hseg hlen
    exact tokensFrom_oversized (segmentsOf chunks.flatten) seg hseg hlen

theorem outbound_line_framing_witness :
    nl ∉ ([97] : List Nat) ∧ outboundScanOk [List.replicate 65537 97] = false := by
  constructor
  · exact (outbound_line_framing [[97, 10], [98]]).1 [97] (by decide)
  · have hflat : ∀ x : List Nat, ([x] : List (List Nat)).flatten = x := by
      intro x
      simp
    have h2 : nl ∉ List.replicate 65537 97 := fun h =>
      absurd (List.eq_of_mem_replicate h) (by decide)
    have hmem : List.replicate 65537 97 ∈
        segmentsOf (([List.replicate 65537 97] : List (List Nat)).flatten) := by
      rw [hflat, segmentsOf_no_nl _ h2]
      exact List.mem_cons_self _ _
    have hlen : maxScanTokenSize < (List.replicate 65537 97).length := by
      rw [List.length_replicate]
      decide
    exact (outbound_line_framing [List.replicate 65537 97]).2.2
      (List.replicate 65537 97) hmem hlen

/-- C3 (counterexample).  `handleWebSocket` consults only `maxConnections`,
never a draining flag, so a session request that reaches the handler after
the shutdown signal but before `server.Shutdown` closes the listener is
admitted, not denied: after the signal arrives, one request is admitted
(ticket consumed, session count 1) and nothing is denied. -/
theorem shutdown_window_admission_counterexample :
    (svcRun svcInit [SvcStep.sigArrive, SvcStep.reqAdmit]).map
        (fun s => (s.admittedAfterSig, s.denied, s.active))
      = some (1, 0, 1) := by
  rfl

/-- C3 (amended).  On the successful-shutdown path the process does not
exit while any session is active (the drain wait is unbounded: the source
has no drain deadline), and once the listener has stopped accepting no
further request can be admitted; but a request received between the
shutdown signal and the listener stop is still admitted when capacity
remains (see the counterexample). -/
theorem shutdown_drain_amended (steps : List SvcStep) (s' : SvcState)
    (h : svcRun svcInit steps = some s') :
    (s'.mpc = MPc.exited → s'.active = 0) ∧
      (s'.accepting = false → svcStep s' SvcStep.reqAdmit = none) := by
  have hinit : svcInv svcInit := by
    constructor
    · intro hc
      rcases hc with hc | hc <;> exact absurd hc (by decide)
    · intro hc
      exact absurd hc (by decide)
  have hinv := svcRun_preserves steps svcInit s' h hinit
  refine ⟨hinv.2, ?_⟩
  intro hacc
  simp [svcStep, hacc]

theorem shutdown_drain_amended_witness :
    svcRun svcInit [SvcStep.sigArrive, SvcStep.doCancel, SvcStep.doShutdown, SvcStep.doExit]
        = some { mpc := MPc.exited, accepting := false, counter := 3, active := 0,
                 admittedAfterSig := 0, denied := 0 } ∧
      ({ mpc := MPc.exited, accepting := false, counter := 3, active := 0,
         admittedAfterSig := 0, denied := 0 } : SvcState).active = 0 ∧
      svcStep { mpc := MPc.exited, accepting := false, counter := 3, active := 0,
                admittedAfterSig := 0, denied := 0 } SvcStep.reqAdmit = none := by
  have hrun : svcRun svcInit
      [SvcStep.sigArrive, SvcStep.doCancel, SvcStep.doShutdown, SvcStep.doExit]
        = some { mpc := MPc.exited, accepting := false, counter := 3, active := 0,
                 admittedAfterSig := 0, denied := 0 } := by rfl
  have h := shutdown_drain_amended
    [SvcStep.sigArrive, SvcStep.doCancel, SvcStep.doShutdown, SvcStep.doExit] _ hrun
  exact ⟨hrun, h.1 rfl, h.2 rfl⟩

/-- C6 (counterexample).  After the outbound direction has terminated
(`readContainerOutput` returned, e.g. on a scanner error), the session is
neither ended nor torn down, and the inbound direction keeps relaying:
here it relays two further messages to the container's stdin. -/
theorem half_duplex_continuation_counterexample :
    relayRun relayInit [RStep.outStop, RStep.inRelay, RStep.inRelay]
      = some { outAlive := false, inAlive := true, tornDown := false,
               outCount := 0, inCount := 2 } := by
  rfl

/-- C6 (amended).  Teardown is triggered by the inbound direction only:
in every reachable state of a relaying session, the session has been torn
down only if `readWebSocketInput` has returned, and as soon as the inbound
direction terminates the teardown step is enabled.  Termination of the
outbound direction alone does not end the session (see the
counterexample). -/
theorem inbound_termination_ends_session_amended (steps : List RStep) (s' : RelayState)
    (h : relayRun relayInit steps = some s') :
    (s'.tornDown = true → s'.inAlive = false) ∧
      (s'.inAlive = false → s'.tornDown = false →
        relayStep s' RStep.teardown = some { s' with tornDown := true }) := by
  have hinv := relayRun_preserves steps relayInit s' h (fun hc => absurd hc (by decide))
  refine ⟨hinv, ?_⟩
  intro h1 h2
  simp [relayStep, h1, h2]

theorem inbound_termination_ends_session_amended_witness :
    relayRun relayInit [RStep.inStop]
        = some { outAlive := true, inAlive := false, tornDown := false,
                 outCount := 0, inCount := 0 } ∧
      relayStep { outAlive := true, inAlive := false, tornDown := false,
                  outCount := 0, inCount := 0 } RStep.teardown
        = some { outAlive := true, inAlive := false, tornDown := true,
                 outCount := 0, inCount := 0 } := by
  have hrun : relayRun relayInit [RStep.inStop]
      = some { outAlive := true, inAlive := false, tornDown := false,
               outCount := 0, inCount := 0 } := by rfl
  have h := inbound_termination_ends_session_amended [RStep.inStop] _ hrun
  exact ⟨hrun, h.2 rfl rfl⟩

/-- C7.  The inbound relay writes each websocket message to the
container's stdin with a line terminator appended, in arrival order (when
the stdin writes succeed), and on stopping for any reason the last action
before the relay direction exits is closing the container's stdin. -/
theorem input_framing (writeOk : Nat → Bool) (msgs : List (List Nat)) :
    ((∀ i, writeOk i = true) →
      readWebSocketInput writeOk msgs
        = msgs.map (fun m => InAct.write (m ++ [nl])) ++ [InAct.closeStdin]) ∧
      (readWebSocketInput writeOk msgs).getLast? = some InAct.closeStdin := by
  constructor
  · intro hw
    rw [readWebSocketInput, wsInputLoop_all_ok writeOk hw 0 msgs]
  · rw [readWebSocketInput]
    exact List.getLast?_concat _

theorem input_framing_witness :
    readWebSocketInput (fun _ => true) [[108, 115], [112, 119, 100]]
        = [InAct.write [108, 115, 10], InAct.write [112, 119, 100, 10], InAct.closeStdin] ∧
      (readWebSocketInput (fun _ => true) [[108, 115], [112, 119, 100]]).getLast?
        = some InAct.closeStdin := by
  have h := input_framing (fun _ => true) [[108, 115], [112, 119, 100]]
  refine ⟨?_, h.2⟩
  have h1 := h.1 (fun _ => rfl)
  simpa [nl] using h1

/-- C4.  For every session whose provisioning succeeded (in particular
every session that reaches `ATTACHED` or later), the deferred
`stopAndRemoveContainer` (container kill plus remove) runs exactly once,
and it runs before the ticket release that marks `DONE`, on every exit
path — including an attach failure and a closed connection (the deferred
calls never consult the connection). -/
theorem teardown_exactly_once (n : Int) (o : HandlerOracle)
    (hn : 0 < n) (hu : o.upgradeOk = true) (hc : o.createOk = true) (hs : o.startOk = true) :
    countEv Ev.killContainer (handleWebSocket n o) = 1 ∧
      countEv Ev.removeContainer (handleWebSocket n o) = 1 ∧
      countEv Ev.killContainer (beforeRelease (handleWebSocket n o)) = 1 ∧
      countEv Ev.removeContainer (beforeRelease (handleWebSocket n o)) = 1 := by
  obtain ⟨u, c, st, a, w⟩ := o
  unfold handleWebSocket
  rw [if_neg (not_le.mpr hn)]
  revert hu hc hs
  cases u <;> cases c <;> cases st <;> cases a <;> cases w <;> decide

theorem teardown_exactly_once_witness :
    (0 : Int) < 3 ∧
      (HandlerOracle.mk true true true false false).upgradeOk = true ∧
      (HandlerOracle.mk true true true false false).createOk = true ∧
      (HandlerOracle.mk true true true false false).startOk = true ∧
      (countEv Ev.killContainer (handleWebSocket 3 (HandlerOracle.mk true true true false false)) = 1 ∧
        countEv Ev.removeContainer (handleWebSocket 3 (HandlerOracle.mk true true true false false)) = 1 ∧
        countEv Ev.killContainer
          (beforeRelease (handleWebSocket 3 (HandlerOracle.mk true true true false false))) = 1 ∧
        countEv Ev.removeContainer
          (beforeRelease (handleWebSocket 3 (HandlerOracle.mk true true true false false))) = 1) :=
  ⟨by decide, rfl, rfl, rfl,
    teardown_exactly_once 3 (HandlerOracle.mk true true true false false)
      (by decide) rfl rfl rfl⟩

/-- C5.  Every admitted session (these are exactly the sessions that reach
`DONE`) acquires exactly one ticket and releases exactly one ticket, on
every exit path: the decrement runs once after the upgrade and the
increment is a single deferred call registered immediately after it. -/
theorem ticket_conservation (n : Int) (o : HandlerOracle)
    (hn : 0 < n) (hu : o.upgradeOk = true) :
    countEv Ev.acquireTicket (handleWebSocket n o) = 1 ∧
      countEv Ev.releaseTicket (handleWebSocket n o) = 1 := by
  obtain ⟨u, c, st, a, w⟩ := o
  unfold handleWebSocket
  rw [if_neg (not_le.mpr hn)]
  revert hu
  cases u <;> cases c <;> cases st <;> cases a <;> cases w <;> decide

theorem ticket_conservation_witness :
    (0 : Int) < 3 ∧
      (HandlerOracle.mk true false true true true).upgradeOk = true ∧
      (countEv Ev.acquireTicket (handleWebSocket 3 (HandlerOracle.mk true false true true true)) = 1 ∧
        countEv Ev.releaseTicket (handleWebSocket 3 (HandlerOracle.mk true false true true true)) = 1) :=
  ⟨by decide, rfl,
    ticket_conservation 3 (HandlerOracle.mk true false true true true) (by decide) rfl⟩

/-- C8.  When provisioning fails (container create or start), the session
goes straight to teardown with no environment destroyed (no kill, no
remove — on a start failure the created container is simply left behind),
exactly one diagnostic message is written on the connection (delivered
exactly when the connection is still open), provisioning is not retried
(one create call, no attach), and the ticket is still released. -/
theorem provisioning_failure_path (n : Int) (o : HandlerOracle)
    (hn : 0 < n) (hu : o.upgradeOk = true)
    (hp : o.createOk = false ∨ o.startOk = false) :
    countEv Ev.killContainer (handleWebSocket n o) = 0 ∧
      countEv Ev.removeContainer (handleWebSocket n o) = 0 ∧
      countDiag (handleWebSocket n o) = 1 ∧
      countDiagDelivered (handleWebSocket n o) = (if o.connWriteOk then 1 else 0) ∧
      countEv Ev.releaseTicket (handleWebSocket n o) = 1 ∧
      countEv Ev.createReq (handleWebSocket n o) = 1 ∧
      countEv Ev.attachReq (handleWebSocket n o) = 0 ∧
      countEv Ev.spawnOutbound (handleWebSocket n o) = 0 := by
  obtain ⟨u, c, st, a, w⟩ := o
  unfold handleWebSocket
  rw [if_neg (not_le.mpr hn)]
  revert hu hp
  cases u <;> cases c <;> cases st <;> cases a <;> cases w <;> decide

theorem provisioning_failure_path_witness :
    (0 : Int) < 3 ∧
      (HandlerOracle.mk true false true true true).upgradeOk = true ∧
      ((HandlerOracle.mk true false true true true).createOk = false ∨
        (HandlerOracle.mk true false true true true).startOk = false) ∧
      (countEv Ev.killContainer (handleWebSocket 3 (HandlerOracle.mk true false true true true)) = 0 ∧
        countEv Ev.removeContainer (handleWebSocket 3 (HandlerOracle.mk true false true true true)) = 0 ∧
        countDiag (handleWebSocket 3 (HandlerOracle.mk true false true true true)) = 1 ∧
        countDiagDelivered (handleWebSocket 3 (HandlerOracle.mk true false true true true))
          = (if (HandlerOracle.mk true false true true true).connWriteOk then 1 else 0) ∧
        countEv Ev.releaseTicket (handleWebSocket 3 (HandlerOracle.mk true false true true true)) = 1 ∧
        countEv Ev.createReq (handleWebSocket 3 (HandlerOracle.mk true false true true true)) = 1 ∧
        countEv Ev.attachReq (handleWebSocket 3 (HandlerOracle.mk true false true true true)) = 0 ∧
        countEv Ev.spawnOutbound (handleWebSocket 3 (HandlerOracle.mk true false true true true)) = 0) :=
  ⟨by decide, rfl, Or.inl rfl,
    provisioning_failure_path 3 (HandlerOracle.mk true false true true true)
      (by decide) rfl (Or.inl rfl)⟩

/-- C9.  When the protocol upgrade fails, the handler returns before the
capacity counter is decremented and before anything is provisioned: the
trace is just the failed upgrade, the counter is unchanged, and no ticket
is consumed, no container created, no session registered. -/
theorem failed_upgrade_no_side_effects (n : Int) (o : HandlerOracle)
    (hn : 0 < n) (hu : o.upgradeOk = false) :
    handleWebSocket n o = [Ev.upgradeFailed] ∧
      runCounter n (handleWebSocket n o) = n ∧
      countEv Ev.acquireTicket (handleWebSocket n o) = 0 ∧
      countEv Ev.createReq (handleWebSocket n o) = 0 ∧
      countEv Ev.wgAdd (handleWebSocket n o) = 0 := by
  have ht : handleWebSocket n o = [Ev.upgradeFailed] := by
    unfold handleWebSocket
    rw [if_neg (not_le.mpr hn), hu]
    simp
  refine ⟨ht, ?_, ?_, ?_, ?_⟩
  · rw [ht]
    simp [runCounter]
  · rw [ht]
    decide
  · rw [ht]
    decide
  · rw [ht]
    decide

theorem failed_upgrade_no_side_effects_witness :
    (0 : Int) < 3 ∧
      (HandlerOracle.mk false true true true true).upgradeOk = false ∧
      (handleWebSocket 3 (HandlerOracle.mk false true true true true) = [Ev.upgradeFailed] ∧
        runCounter 3 (handleWebSocket 3 (HandlerOracle.mk false true true true true)) = 3 ∧
        countEv Ev.acquireTicket (handleWebSocket 3 (HandlerOracle.mk false true true true true)) = 0 ∧
        countEv Ev.createReq (handleWebSocket 3 (HandlerOracle.mk false true true true true)) = 0 ∧
        countEv Ev.wgAdd (handleWebSocket 3 (HandlerOracle.mk false true true true true)) = 0) :=
  ⟨by decide, rfl,
    failed_upgrade_no_side_effects 3 (HandlerOracle.mk false true true true true)
      (by decide) rfl⟩

end Termigo
